import Mathlib

/-!
Verification development for `tools/lint_acceptance_ids.py`, the spec
traceability linter.  The Python program is shallowly embedded: the
filesystem, the external `grep` invocation and the spec-directory glob are
abstracted into an `Env` structure, pure text processing (the regular
expressions `ACCEPTANCE_ID_RE`, `POINTER_RE` and the `fn`-definition
pattern of `file_contains_fn`) is implemented directly on `List Char`
following the backtracking semantics of Python's `re` module, and raised
exceptions are modelled with `Except Unit`.
-/

/-- Word character in the sense of Python's `\w` / `\b` (ASCII range):
letters, digits and underscore. -/
def isWordChar (c : Char) : Bool := c.isAlphanum || c == '_'

/-- Whitespace in the sense of Python's `\s` and `str.strip()` (ASCII range):
space, tab, newline, carriage return, vertical tab, form feed. -/
def isSpaceChar (c : Char) : Bool :=
  c == ' ' || c == '\t' || c == '\n' || c == '\r' || c == '\x0b' || c == '\x0c'

/-- Character class `[A-Z0-9]` of `ACCEPTANCE_ID_RE`. -/
def isUpperDigit (c : Char) : Bool := ('A' ≤ c && c ≤ 'Z') || c.isDigit

/-- Accumulator-style worker for `splitLines`. -/
def splitLinesAux : List Char → List Char → List (List Char)
  | acc, [] => if acc.isEmpty then [] else [acc.reverse]
  | acc, '\r' :: '\n' :: rest => acc.reverse :: splitLinesAux [] rest
  | acc, '\n' :: rest => acc.reverse :: splitLinesAux [] rest
  | acc, '\r' :: rest => acc.reverse :: splitLinesAux [] rest
  | acc, c :: rest => splitLinesAux (c :: acc) rest

/-- Python's `str.splitlines()` on the common line terminators
`\n`, `\r\n`, `\r`: no trailing empty line is produced for a trailing
terminator. -/
def splitLines (text : List Char) : List (List Char) := splitLinesAux [] text

/-- Python's `enumerate(lines, start=i)`. -/
def numberLines : Nat → List (List Char) → List (Nat × List Char)
  | _, [] => []
  | i, l :: ls => (i, l) :: numberLines (i + 1) ls

/-- The split of the quote-free segment `seg` demanded by
`POINTER_RE = "([^"]+\.rs)::([^"]+)"`: the longest prefix `g` of `seg`
(group 1 is greedy, so backtracking yields the longest) such that `g` ends
in `.rs`, has at least one character before `.rs`, is followed by `::`,
and at least one character remains for group 2. -/
def pointerSplit (seg : List Char) : Option (List Char × List Char) :=
  ((List.range (seg.length + 1)).filterMap (fun n =>
    let g := seg.take n
    let r := seg.drop n
    if 4 ≤ g.length && List.isSuffixOf ['.', 'r', 's'] g &&
        List.isPrefixOf [':', ':'] r && 3 ≤ r.length
    then some (g, r.drop 2) else none)).getLast?

/-- Fuel-indexed scan of one line for `POINTER_RE.finditer`: at each `"`,
the match (if any) lies entirely between that quote and the next quote;
on success the scan resumes after the closing quote, on failure one
character later.  The fuel only bounds recursion depth; `lineMatches`
supplies enough of it for the scan to be exact. -/
def lineMatchesFuel : Nat → List Char → List (String × String)
  | 0, _ => []
  | _ + 1, [] => []
  | fuel + 1, c :: cs =>
    if c == '"' then
      let seg := cs.takeWhile (fun d => d != '"')
      if seg.length < cs.length then
        match pointerSplit seg with
        | some (g, f) =>
            (String.mk g, String.mk f) :: lineMatchesFuel fuel (cs.drop (seg.length + 1))
        | none => lineMatchesFuel fuel cs
      else lineMatchesFuel fuel cs
    else lineMatchesFuel fuel cs

/-- All `POINTER_RE` matches of one line, as (filename, function name)
pairs in left-to-right order. -/
def lineMatches (line : List Char) : List (String × String) :=
  lineMatchesFuel (line.length + 1) line

/-- Pure core of `extract_test_pointers`: scan the document line by line
(1-based numbering) and record every `POINTER_RE` occurrence, in document
order, without deduplication. -/
def test_pointers_of (text : String) : List (String × String × Nat) :=
  ((numberLines 1 (splitLines text.toList)).map
    (fun il => (lineMatches il.2).map (fun m => (m.1, m.2, il.1)))).flatten

/-- Maximal run of `(?:-[A-Z0-9]+)` segments (each returned with its
leading dash), as consumed by the greedy `+` of `ACCEPTANCE_ID_RE`. -/
def takeSegsFuel : Nat → List Char → List (List Char)
  | 0, _ => []
  | fuel + 1, '-' :: rest =>
    let run := rest.takeWhile isUpperDigit
    if run.isEmpty then []
    else ('-' :: run) :: takeSegsFuel fuel (rest.drop run.length)
  | _ + 1, _ => []

/-- Length of the `ACCEPTANCE_ID_RE` match starting exactly at `cs`
(the leading `\b` is checked by the caller).  The pattern is
`(?:S1|SC1)-M\d+(?:-[A-Z0-9]+)+\b`; greediness plus the trailing `\b`
means: take the maximal digit run, then the maximal segment run, and if
the character following the last segment is still a word character, give
back exactly one whole segment (shrinking inside a segment can never
restore the boundary, since `[A-Z0-9]` characters are word characters). -/
def matchIdAt (cs : List Char) : Option Nat :=
  let p : Option Nat :=
    if List.isPrefixOf ['S', '1', '-', 'M'] cs then some 4
    else if List.isPrefixOf ['S', 'C', '1', '-', 'M'] cs then some 5
    else none
  match p with
  | none => none
  | some n =>
    let rest0 := cs.drop n
    let d := rest0.takeWhile Char.isDigit
    if d.isEmpty then none
    else
      let rest1 := rest0.drop d.length
      let segs := takeSegsFuel (rest1.length + 1) rest1
      if segs.isEmpty then none
      else
        let total := (segs.map List.length).sum
        let boundary : Bool :=
          match rest1.drop total with
          | [] => true
          | c :: _ => !isWordChar c
        if boundary then some (n + d.length + total)
        else if 2 ≤ segs.length then
          some (n + d.length + (total - (segs.getLastD []).length))
        else none

/-- Fuel-indexed scan for `ACCEPTANCE_ID_RE.findall`: a match may only
start where the preceding character is not a word character (`\b`); after
a match the scan resumes at the match end (every match ends in a word
character, so the flag becomes `true`). -/
def idScanFuel : Nat → Bool → List Char → List String
  | 0, _, _ => []
  | _ + 1, _, [] => []
  | fuel + 1, prevWord, c :: cs =>
    if prevWord then idScanFuel fuel (isWordChar c) cs
    else
      match matchIdAt (c :: cs) with
      | some n => String.mk ((c :: cs).take n) :: idScanFuel fuel true (cs.drop (n - 1))
      | none => idScanFuel fuel (isWordChar c) cs

/-- `ACCEPTANCE_ID_RE.findall(text)`: all matches in document order,
including duplicates. -/
def acceptance_id_findall (text : String) : List String :=
  idScanFuel (text.toList.length + 1) false text.toList

/-- Pure core of `extract_acceptance_ids`: Python's
`set(ACCEPTANCE_ID_RE.findall(text))`, modelled as the duplicate-free
list of matches. -/
def acceptance_ids_of (text : String) : List String :=
  (acceptance_id_findall text).dedup

/-- Head of the remaining input is the opening parenthesis `\(` that
terminates the `file_contains_fn` pattern. -/
def headIsOpen : List Char → Bool
  | c :: _ => c == '('
  | [] => false

/-- Backtracking `\s*` followed by continuation `k`: succeeds iff some
(possibly empty) whitespace prefix can be removed so that `k` succeeds. -/
def spacesStarThen (k : List Char → Bool) : List Char → Bool
  | [] => k []
  | c :: cs => (isSpaceChar c && spacesStarThen k cs) || k (c :: cs)

/-- Backtracking `\s+` followed by continuation `k`. -/
def spacesPlusThen (k : List Char → Bool) : List Char → Bool
  | [] => false
  | c :: cs => isSpaceChar c && spacesStarThen k cs

/-- Continuation after `fn\s+`: the literal (escaped) function name, then
`\s*\(`. -/
def fnNameThenParen (name : List Char) (cs : List Char) : Bool :=
  List.isPrefixOf name cs && spacesStarThen headIsOpen (cs.drop name.length)

/-- The pattern `fn\s+<name>\s*\(` anchored at the current position
(the leading `\b` is checked by the caller). -/
def fnMatchHere (name : List Char) : List Char → Bool
  | [] => false
  | [_] => false
  | c1 :: c2 :: rest => c1 == 'f' && c2 == 'n' && spacesPlusThen (fnNameThenParen name) rest

/-- Search of `re.compile(rf"\bfn\s+{re.escape(fn_name)}\s*\(").search`:
try every position whose preceding character is not a word character. -/
def fnSearchAux (name : List Char) : Bool → List Char → Bool
  | _, [] => false
  | prevWord, c :: cs =>
    (!prevWord && fnMatchHere name (c :: cs)) || fnSearchAux name (isWordChar c) cs

/-- Python's `str.strip()` (whitespace from both ends). -/
def pyStrip (cs : List Char) : List Char :=
  ((cs.dropWhile isSpaceChar).reverse.dropWhile isSpaceChar).reverse

/-- Python's `str.split("\n")`: splits on every newline, keeping empty
pieces. -/
def splitNlAux : List Char → List Char → List (List Char)
  | acc, [] => [acc.reverse]
  | acc, '\n' :: rest => acc.reverse :: splitNlAux [] rest
  | acc, c :: rest => splitNlAux (c :: acc) rest

/-- Code-point-wise `<=` on strings (the order Python's `sorted` uses). -/
def leChars : List Char → List Char → Bool
  | [], _ => true
  | _ :: _, [] => false
  | a :: as, b :: bs =>
    if a.toNat < b.toNat then true
    else if b.toNat < a.toNat then false
    else leChars as bs

/-- Python's `<=` on `str`. -/
def pyStrLe (a b : String) : Bool := leChars a.toList b.toList

/-- Insertion step of Python's `sorted` on strings. -/
def insertSorted (a : String) : List String → List String
  | [] => [a]
  | b :: bs => if pyStrLe a b then a :: b :: bs else b :: insertSorted a bs

/-- Python's `sorted` on strings (ascending lexicographic order). -/
def sortedStrings (l : List String) : List String := l.foldr insertSorted []

/-- Outcome of the `subprocess.run(["grep", ...])` call in `grep_for_id`:
normal completion with captured stdout, `subprocess.TimeoutExpired`, or
`FileNotFoundError` (the `grep` binary is absent). -/
inductive GrepOutcome where
  | completed (stdout : String)
  | timeoutExpired
  | fileNotFound
deriving DecidableEq

/-- Outcome of `Path.read_text()` on a source file: the text, an
`OSError` (e.g. permissions), or a `UnicodeDecodeError` (invalid bytes
for the text encoding; a `ValueError`, not an `OSError`). -/
inductive ReadResult where
  | ok (text : String)
  | osError
  | unicodeError
deriving DecidableEq

/-- The ambient state the linter runs against: the spec-directory glob,
spec-document reading (an `Except.error` models a raised exception
propagating out of `read_text`), the external grep invocation, and the
filesystem queries used by `resolve_file` and `file_contains_fn`. -/
structure Env where
  spec_dir_exists : Bool
  spec_glob : List String
  read_spec : String → Except Unit String
  grep_run : String → List String → GrepOutcome
  path_exists : String → Bool
  rglob : String → String → List String
  is_file : String → Bool
  read_text : String → ReadResult

/-- `SPEC_DIR = Path(".caws/specs")`. -/
def SPEC_DIR : String := ".caws/specs"

/-- `SEARCH_PATHS`: directories searched for anchors. -/
def SEARCH_PATHS : List String := ["kernel/", "search/", "harness/", "tests/", ".github/"]

/-- `RESOLVE_ROOTS`: directories searched when resolving bare filenames. -/
def RESOLVE_ROOTS : List String :=
  ["kernel/src", "search/src", "harness/src", "tests/lock/tests", "tests/lock/src"]

/-- `find_spec_files`: empty if the spec directory does not exist,
otherwise the sorted glob of `*.yaml` files. -/
def find_spec_files (env : Env) : List String :=
  if env.spec_dir_exists then sortedStrings env.spec_glob else []

/-- `extract_acceptance_ids(spec_path)`: reads the spec (a read failure
propagates — there is no `try` here) and returns the set of
`ACCEPTANCE_ID_RE` matches. -/
def extract_acceptance_ids (env : Env) (spec_path : String) : Except Unit (List String) := do
  let text ← env.read_spec spec_path
  return acceptance_ids_of text

/-- `extract_test_pointers(spec_path)`: reads the spec (a read failure
propagates) and returns every pointer occurrence with its 1-based line
number. -/
def extract_test_pointers (env : Env) (spec_path : String) :
    Except Unit (List (String × String × Nat)) := do
  let text ← env.read_spec spec_path
  return test_pointers_of text

/-- `grep_for_id`: the stdout lines of the grep call, with empty lines
filtered out; `TimeoutExpired` and `FileNotFoundError` are caught and
yield the empty list. -/
def grep_for_id (run : String → List String → GrepOutcome)
    (acceptance_id : String) (search_paths : List String) : List String :=
  match run acceptance_id search_paths with
  | .completed out =>
      ((splitNlAux [] (pyStrip out.toList)).map String.mk).filter (fun f => !f.isEmpty)
  | .timeoutExpired => []
  | .fileNotFound => []

/-- Worker for `Path(filename).name`: the last `/`-separated component. -/
def basenameChars : List Char → List Char → List Char
  | acc, [] => acc.reverse
  | _, '/' :: rest => basenameChars [] rest
  | acc, c :: rest => basenameChars (c :: acc) rest

/-- `Path(filename).name`. -/
def basename (filename : String) : String := String.mk (basenameChars [] filename.toList)

/-- The hit list collected by `resolve_file`'s root search:
`root.rglob(basename)` filtered to regular files, concatenated over
`RESOLVE_ROOTS` in order. -/
def resolve_hits (env : Env) (filename : String) : List String :=
  ((RESOLVE_ROOTS.map
    (fun root => (env.rglob root (basename filename)).filter env.is_file))).flatten

/-- Result of `resolve_file`: a resolved path, the `AmbiguousFile`
exception carrying the filename and all candidates, or `None`. -/
inductive ResolveResult where
  | resolved (p : String)
  | ambiguousFile (filename : String) (candidates : List String)
  | notFound
deriving DecidableEq

/-- `resolve_file`: a filename that exists as a direct relative path is
returned immediately; otherwise the bare basename is searched under
`RESOLVE_ROOTS` and exactly-one / none / several hits map to resolved /
not-found / ambiguous. -/
def resolve_file (env : Env) (filename : String) : ResolveResult :=
  if env.path_exists filename then .resolved filename
  else
    match resolve_hits env filename with
    | [] => .notFound
    | [h] => .resolved h
    | hits => .ambiguousFile filename hits

/-- `file_contains_fn`: search the file text for `\bfn\s+<name>\s*\(`.
The `except OSError` clause catches only `OSError`, returning `False`;
a `UnicodeDecodeError` is a `ValueError` and propagates uncaught. -/
def file_contains_fn (env : Env) (path : String) (fn_name : String) : Except Unit Bool :=
  match env.read_text path with
  | .ok text => .ok (fnSearchAux fn_name.toList false text.toList)
  | .osError => .ok false
  | .unicodeError => .error ()

/-- `lint_acceptance_ids_for_spec`: the spec's identifier set together
with the sorted identifiers for which `grep_for_id` returned no hits. -/
def lint_acceptance_ids_for_spec (env : Env) (spec_path : String) :
    Except Unit (List String × List String) := do
  let ids ← extract_acceptance_ids env spec_path
  let unanchored := (sortedStrings ids).filter
    (fun aid => (grep_for_id env.grep_run aid SEARCH_PATHS).isEmpty)
  return (ids, unanchored)

/-- The diagnostic line `lint_test_pointers_for_spec` appends for one
pointer, or `none` if the pointer verifies; `Except.error` models a
propagating `UnicodeDecodeError` from `file_contains_fn`. -/
def broken_msg (env : Env) : String × String × Nat → Except Unit (Option String)
  | (filename, fn_name, line_no) =>
    match resolve_file env filename with
    | .ambiguousFile _ cands =>
        .ok (some ("  line " ++ toString line_no ++ ": " ++ filename ++ "::" ++ fn_name ++
          " — ambiguous: resolves to " ++ toString cands.length ++ " files (" ++
          String.intercalate ", " cands ++ "). Use a prefixed path in the spec to disambiguate."))
    | .notFound =>
        .ok (some ("  line " ++ toString line_no ++ ": " ++ filename ++ "::" ++ fn_name ++
          " — file not found"))
    | .resolved r => do
        let b ← file_contains_fn env r fn_name
        return (if b then none
          else some ("  line " ++ toString line_no ++ ": " ++ filename ++ "::" ++ fn_name ++
            " — fn not found in " ++ r))

/-- Whether a pointer contributes a diagnostic (its `broken_msg`
completes with a message). -/
def is_broken (env : Env) (ptr : String × String × Nat) : Bool :=
  match broken_msg env ptr with
  | .ok (some _) => true
  | _ => false

/-- The `broken` list accumulated by `lint_test_pointers_for_spec`'s
loop over the pointers, in order. -/
def broken_list (env : Env) : List (String × String × Nat) → Except Unit (List String)
  | [] => .ok []
  | ptr :: rest => do
    let m ← broken_msg env ptr
    let ms ← broken_list env rest
    return (match m with | some s => s :: ms | none => ms)

/-- `lint_test_pointers_for_spec`: all pointer occurrences and the
diagnostics of the broken ones. -/
def lint_test_pointers_for_spec (env : Env) (spec_path : String) :
    Except Unit (List (String × String × Nat) × List String) := do
  let pointers ← extract_test_pointers env spec_path
  let broken ← broken_list env pointers
  return (pointers, broken)

/-- Per-spec result of `main`'s loop body: identifier lint result and
pointer lint result. -/
abbrev SpecResult :=
  (List String × List String) × (List (String × String × Nat) × List String)

/-- One iteration of `main`'s loop over the spec files. -/
def process_spec (env : Env) (spec_path : String) : Except Unit SpecResult := do
  let a ← lint_acceptance_ids_for_spec env spec_path
  let b ← lint_test_pointers_for_spec env spec_path
  return (a, b)

/-- `main`'s loop: sequential, aborting at the first propagating
exception. -/
def run_specs (env : Env) : List String → Except Unit (List SpecResult)
  | [] => .ok []
  | p :: rest => do
    let r ← process_spec env p
    let rs ← run_specs env rest
    return r :: rs

/-- Observable outcome of a completed `main`: the returned exit status,
what was printed to stderr, and the four running totals of the summary
line. -/
structure MainResult where
  exit_code : Nat
  stderr : List String
  total_ids : Nat
  total_unanchored : Nat
  total_pointers : Nat
  total_broken : Nat
deriving DecidableEq

/-- `main`: hard error (exit 1, stderr diagnostic) when no spec files are
found; otherwise lint every spec, accumulate totals, and exit 1 exactly
when some spec had an unanchored identifier or a broken pointer.
An `Except.error` models an exception propagating out of `main`
(the `sys.exit(main())` call is then never reached). -/
def linter_main (env : Env) : Except Unit MainResult :=
  if (find_spec_files env).isEmpty then
    .ok ⟨1, ["ERROR: no spec files found in " ++ SPEC_DIR], 0, 0, 0, 0⟩
  else do
    let results ← run_specs env (find_spec_files env)
    return ⟨if results.any (fun r => !r.1.2.isEmpty || !r.2.2.isEmpty) then 1 else 0, [],
      (results.map (fun r => r.1.1.length)).sum,
      (results.map (fun r => r.1.2.length)).sum,
      (results.map (fun r => r.2.1.length)).sum,
      (results.map (fun r => r.2.2.length)).sum⟩

/-! ## Helper lemmas -/

/-- Bind of a successful `Except Unit` computation reduces. -/
theorem except_bind_ok {α β : Type} (a : α) (f : α → Except Unit β) :
    ((Except.ok a : Except Unit α) >>= f) = f a := rfl

/-- Bind of a failed `Except Unit` computation stays failed. -/
theorem except_bind_error {α β : Type} (f : α → Except Unit β) :
    ((Except.error () : Except Unit α) >>= f) = Except.error () := rfl

/-- Membership is preserved by the insertion step of `sortedStrings`. -/
theorem mem_insertSorted (a b : String) (l : List String) :
    b ∈ insertSorted a l ↔ b = a ∨ b ∈ l := by
  induction l with
  | nil => simp [insertSorted]
  | cons c cs ih =>
    rcases h : pyStrLe a c with _ | _
    · simp [insertSorted, h, ih]
      tauto
    · simp [insertSorted, h]

/-- `sortedStrings` is a reordering: membership is unchanged. -/
theorem mem_sortedStrings (l : List String) (b : String) :
    b ∈ sortedStrings l ↔ b ∈ l := by
  induction l with
  | nil => simp [sortedStrings]
  | cons c cs ih =>
    have : sortedStrings (c :: cs) = insertSorted c (sortedStrings cs) := rfl
    rw [this, mem_insertSorted]
    simp [ih]

/-- A pointer whose `broken_msg` completes with a message contributes that
message to any completed `broken_list` containing the pointer. -/
theorem mem_broken_list (env : Env) {ptr : String × String × Nat} {m : String}
    (hmsg : broken_msg env ptr = .ok (some m)) :
    ∀ ptrs bs, ptr ∈ ptrs → broken_list env ptrs = .ok bs → m ∈ bs := by
  intro ptrs
  induction ptrs with
  | nil => intro bs h; simp at h
  | cons q rest ih =>
    intro bs hmem hlist
    rcases hq : broken_msg env q with e | mq
    · rw [broken_list, hq, except_bind_error] at hlist
      cases hlist
    · rcases hrest : broken_list env rest with e | ms
      · rw [broken_list, hq, except_bind_ok, hrest, except_bind_error] at hlist
        cases hlist
      · rw [broken_list, hq, except_bind_ok, hrest, except_bind_ok] at hlist
        injection hlist with hbs
        rcases List.mem_cons.mp hmem with hhead | htail
        · subst hhead
          rw [hq] at hmsg
          injection hmsg with hm
          subst hm
          subst hbs
          simp
        · have hms : m ∈ ms := ih ms htail hrest
          subst hbs
          cases mq <;> simp [hms]

/-- A completed `broken_list` has exactly one entry per broken pointer
occurrence. -/
theorem broken_list_length (env : Env) :
    ∀ (ptrs : List (String × String × Nat)) (bs : List String),
      broken_list env ptrs = .ok bs → bs.length = ptrs.countP (is_broken env) := by
  intro ptrs
  induction ptrs with
  | nil =>
    intro bs h
    injection h with h
    subst h
    simp
  | cons q rest ih =>
    intro bs hlist
    rcases hq : broken_msg env q with e | mq
    · rw [broken_list, hq, except_bind_error] at hlist
      cases hlist
    · rcases hrest : broken_list env rest with e | ms
      · rw [broken_list, hq, except_bind_ok, hrest, except_bind_error] at hlist
        cases hlist
      · rw [broken_list, hq, except_bind_ok, hrest, except_bind_ok] at hlist
        injection hlist with hbs
        subst hbs
        have hcnt := ih ms hrest
        rw [List.countP_cons]
        cases mq with
        | none => simp [is_broken, hq, hcnt]
        | some s => simp [is_broken, hq, hcnt]

/-- Successful-read characterization of `lint_acceptance_ids_for_spec`. -/
theorem lint_acceptance_ids_eq (env : Env) (p text : String)
    (hread : env.read_spec p = .ok text) :
    lint_acceptance_ids_for_spec env p = .ok (acceptance_ids_of text,
      (sortedStrings (acceptance_ids_of text)).filter
        (fun aid => (grep_for_id env.grep_run aid SEARCH_PATHS).isEmpty)) := by
  unfold lint_acceptance_ids_for_spec extract_acceptance_ids
  rw [hread]
  rfl

/-- Failed-read characterization of `lint_acceptance_ids_for_spec`: the
exception propagates. -/
theorem lint_acceptance_ids_error (env : Env) (p : String)
    (hread : env.read_spec p = .error ()) :
    lint_acceptance_ids_for_spec env p = .error () := by
  unfold lint_acceptance_ids_for_spec extract_acceptance_ids
  rw [hread]
  rfl

/-! ## Concrete environments used as witnesses -/

/-- An environment whose spec directory is missing. -/
def envNoDir : Env :=
  ⟨false, [], fun _ => .error (), fun _ _ => .completed "", fun _ => false,
   fun _ _ => [], fun _ => false, fun _ => .osError⟩

/-- A clean environment: one empty spec document, grep completing with no
output. -/
def envClean : Env :=
  ⟨true, ["a.yaml"], fun _ => .ok "", fun _ _ => .completed "", fun _ => false,
   fun _ _ => [], fun _ => false, fun _ => .osError⟩

/-- An environment in which every direct path exists, while the resolution
roots also contain same-named files. -/
def envDirect : Env :=
  ⟨true, [], fun _ => .error (), fun _ _ => .timeoutExpired, fun _ => true,
   fun _ _ => ["kernel/src/compile.rs", "search/src/compile.rs"], fun _ => true,
   fun _ => .osError⟩

/-- An environment in which no direct path exists and the bare name
`compile.rs` is found under two resolution roots. -/
def envAmbig : Env :=
  ⟨true, [], fun _ => .error (), fun _ _ => .completed "", fun _ => false,
   fun root bn => if bn = "compile.rs" then
      (if root = "kernel/src" then ["kernel/src/compile.rs"]
       else if root = "search/src" then ["search/src/compile.rs"] else [])
    else [],
   fun _ => true, fun _ => .osError⟩

/-- An environment whose source files all fail to read with `OSError`. -/
def envOsErr : Env :=
  ⟨true, [], fun _ => .error (), fun _ _ => .completed "", fun _ => true,
   fun _ _ => [], fun _ => false, fun _ => .osError⟩

/-- An environment whose source files all fail to decode
(`UnicodeDecodeError`). -/
def envUnicode : Env :=
  ⟨true, [], fun _ => .error (), fun _ _ => .completed "", fun _ => true,
   fun _ _ => [], fun _ => false, fun _ => .unicodeError⟩

/-- An environment whose grep always times out, with one spec document
declaring one acceptance identifier. -/
def envTimeout : Env :=
  ⟨true, ["a.yaml"], fun _ => .ok "S1-M1-A", fun _ _ => .timeoutExpired,
   fun _ => false, fun _ _ => [], fun _ => false, fun _ => .osError⟩

/-- An environment with two spec documents, the second of which fails to
read. -/
def envAbort : Env :=
  ⟨true, ["a.yaml", "b.yaml"],
   fun p => if p = "b.yaml" then .error () else .ok "",
   fun _ _ => .completed "", fun _ => false, fun _ _ => [], fun _ => false,
   fun _ => .osError⟩

/-! ## Claim theorems -/

/-- C3: a pointer filename that exists as a path relative to the
repository root is returned immediately by `resolve_file`; the multi-root
search is bypassed (the theorem holds for every `rglob` behaviour, in
particular when same-named files exist under the resolution roots). -/
theorem resolve_direct_path_bypasses_roots (env : Env) (filename : String)
    (h : env.path_exists filename = true) :
    resolve_file env filename = .resolved filename := by
  simp [resolve_file, h]

/-- Witness for C3: `kernel/src/compile.rs` resolves to itself even though
two same-named files live under the resolution roots. -/
theorem resolve_direct_path_bypasses_roots_witness :
    resolve_file envDirect "kernel/src/compile.rs" = .resolved "kernel/src/compile.rs" :=
  resolve_direct_path_bypasses_roots envDirect "kernel/src/compile.rs" rfl

/-- C5 counterexample: the claim says every unreadable file — including an
encoding failure — degrades to `False`; but `file_contains_fn` catches
only `OSError`, so a `UnicodeDecodeError` propagates as an exception
instead of returning `False`. -/
theorem unicode_read_failure_raises :
    file_contains_fn envUnicode "kernel/src/compile.rs" "run" = .error () ∧
    file_contains_fn envUnicode "kernel/src/compile.rs" "run" ≠ .ok false :=
  ⟨rfl, fun h => Except.noConfusion h⟩

/-- C5 (amended): an `OSError` during the function-presence check degrades
to "function not found" (`False`) without crashing; a
`UnicodeDecodeError` is not caught and propagates. -/
theorem read_failure_degrades_to_false (env : Env) (path fn_name : String) :
    (env.read_text path = .osError → file_contains_fn env path fn_name = .ok false) ∧
    (env.read_text path = .unicodeError → file_contains_fn env path fn_name = .error ()) := by
  constructor <;> intro h <;> simp [file_contains_fn, h]

/-- Witness for C5 (amended): both read-failure behaviours at concrete
inputs. -/
theorem read_failure_degrades_to_false_witness :
    file_contains_fn envOsErr "kernel/src/a.rs" "run" = .ok false ∧
    file_contains_fn envUnicode "kernel/src/a.rs" "run" = .error () :=
  ⟨(read_failure_degrades_to_false envOsErr "kernel/src/a.rs" "run").1 rfl,
   (read_failure_degrades_to_false envUnicode "kernel/src/a.rs" "run").2 rfl⟩

/-- C9: when no specification documents are found, `main` prints a
diagnostic to stderr and returns exit status 1 without performing any
checking (the result is a fixed constant, independent of every other
field of the environment); it never exits 0 on an empty document set. -/
theorem no_spec_files_exits_one (env : Env) (h : find_spec_files env = []) :
    linter_main env =
      .ok ⟨1, ["ERROR: no spec files found in " ++ SPEC_DIR], 0, 0, 0, 0⟩ ∧
    ∀ r, linter_main env = .ok r → r.exit_code = 1 ∧ r.stderr ≠ [] := by
  have hmain : linter_main env =
      .ok ⟨1, ["ERROR: no spec files found in " ++ SPEC_DIR], 0, 0, 0, 0⟩ := by
    simp [linter_main, h]
  refine ⟨hmain, ?_⟩
  intro r hr
  rw [hmain] at hr
  injection hr with hr
  subst hr
  exact ⟨rfl, by simp⟩

/-- Witness for C9: a missing spec directory yields the fixed exit-1
result. -/
theorem no_spec_files_exits_one_witness :
    linter_main envNoDir =
      .ok ⟨1, ["ERROR: no spec files found in " ++ SPEC_DIR], 0, 0, 0, 0⟩ :=
  (no_spec_files_exits_one envNoDir rfl).1

/-- C2: a bare filename matching two or more files across the resolution
roots makes `resolve_file` return the ambiguous outcome carrying the full
candidate list — never a single resolved path — and any pointer with that
filename contributes an ambiguity diagnostic to the broken list. -/
theorem ambiguous_never_resolved (env : Env) (filename : String)
    (h1 : env.path_exists filename = false)
    (h2 : 2 ≤ (resolve_hits env filename).length) :
    resolve_file env filename = .ambiguousFile filename (resolve_hits env filename) ∧
    (∀ p, resolve_file env filename ≠ .resolved p) ∧
    (∀ fn_name line_no, ∃ m,
      broken_msg env (filename, fn_name, line_no) = .ok (some m) ∧
      ∀ ptrs bs, (filename, fn_name, line_no) ∈ ptrs →
        broken_list env ptrs = .ok bs → m ∈ bs) := by
  have hres : resolve_file env filename
      = .ambiguousFile filename (resolve_hits env filename) := by
    rcases hh : resolve_hits env filename with _ | ⟨a, _ | ⟨b, t⟩⟩
    · rw [hh] at h2; simp at h2
    · rw [hh] at h2; simp at h2
    · simp [resolve_file, h1, hh]
  refine ⟨hres, ?_, ?_⟩
  · intro p hcontra
    rw [hres] at hcontra
    cases hcontra
  · intro fn_name line_no
    have hmsg : broken_msg env (filename, fn_name, line_no) =
        .ok (some ("  line " ++ toString line_no ++ ": " ++ filename ++ "::" ++ fn_name ++
          " — ambiguous: resolves to " ++ toString (resolve_hits env filename).length ++
          " files (" ++ String.intercalate ", " (resolve_hits env filename) ++
          "). Use a prefixed path in the spec to disambiguate.")) := by
      simp only [broken_msg, hres]
    exact ⟨_, hmsg, mem_broken_list env hmsg⟩

/-- Witness for C2: `compile.rs` exists under two roots in `envAmbig`. -/
theorem ambiguous_never_resolved_witness :
    resolve_file envAmbig "compile.rs" =
      .ambiguousFile "compile.rs" (resolve_hits envAmbig "compile.rs") ∧
    (∀ p, resolve_file envAmbig "compile.rs" ≠ .resolved p) ∧
    (∀ fn_name line_no, ∃ m,
      broken_msg envAmbig ("compile.rs", fn_name, line_no) = .ok (some m) ∧
      ∀ ptrs bs, ("compile.rs", fn_name, line_no) ∈ ptrs →
        broken_list envAmbig ptrs = .ok bs → m ∈ bs) :=
  ambiguous_never_resolved envAmbig "compile.rs" rfl (by decide)

/-- C6: a grep timeout or a missing grep binary makes `grep_for_id`
return no hits; the affected identifier is reported unanchored, every
other identifier of the document is still judged by its own grep result,
and the per-document lint completes normally (no abort). -/
theorem grep_failure_degrades (env : Env) (aid : String)
    (h : env.grep_run aid SEARCH_PATHS = .timeoutExpired ∨
         env.grep_run aid SEARCH_PATHS = .fileNotFound) :
    grep_for_id env.grep_run aid SEARCH_PATHS = [] ∧
    (∀ spec_path ids un,
      lint_acceptance_ids_for_spec env spec_path = .ok (ids, un) →
      ((aid ∈ ids → aid ∈ un) ∧
       ∀ b ∈ ids, (b ∈ un ↔ (grep_for_id env.grep_run b SEARCH_PATHS).isEmpty = true))) ∧
    (∀ spec_path text, env.read_spec spec_path = .ok text →
      ∃ un, lint_acceptance_ids_for_spec env spec_path = .ok (acceptance_ids_of text, un)) := by
  have hgrep : grep_for_id env.grep_run aid SEARCH_PATHS = [] := by
    rcases h with h | h <;> rw [grep_for_id, h]
  refine ⟨hgrep, ?_, ?_⟩
  · intro spec_path ids un hlint
    rcases hread : env.read_spec spec_path with e | text
    · rw [lint_acceptance_ids_error env spec_path (by cases e; exact hread)] at hlint
      cases hlint
    · rw [lint_acceptance_ids_eq env spec_path text hread] at hlint
      injection hlint with hpair
      have hids : ids = acceptance_ids_of text := (Prod.mk.injEq _ _ _ _ ▸ hpair).1.symm
      have hun : un = (sortedStrings (acceptance_ids_of text)).filter
          (fun b => (grep_for_id env.grep_run b SEARCH_PATHS).isEmpty) :=
        ((Prod.mk.injEq _ _ _ _ ▸ hpair).2).symm
      constructor
      · intro hmem
        rw [hun, List.mem_filter, mem_sortedStrings]
        refine ⟨hids ▸ hmem, ?_⟩
        rw [hgrep]
        rfl
      · intro b hb
        rw [hun, List.mem_filter, mem_sortedStrings]
        simp [hids ▸ hb]
  · intro spec_path text hread
    exact ⟨_, lint_acceptance_ids_eq env spec_path text hread⟩

/-- Witness for C6: in `envTimeout` the single identifier `S1-M1-A` is
reported unanchored and the lint completes. -/
theorem grep_failure_degrades_witness :
    grep_for_id envTimeout.grep_run "S1-M1-A" SEARCH_PATHS = [] ∧
    (∀ spec_path ids un,
      lint_acceptance_ids_for_spec envTimeout spec_path = .ok (ids, un) →
      (("S1-M1-A" ∈ ids → "S1-M1-A" ∈ un) ∧
       ∀ b ∈ ids,
        (b ∈ un ↔ (grep_for_id envTimeout.grep_run b SEARCH_PATHS).isEmpty = true))) ∧
    (∀ spec_path text, envTimeout.read_spec spec_path = .ok text →
      ∃ un, lint_acceptance_ids_for_spec envTimeout spec_path =
        .ok (acceptance_ids_of text, un)) :=
  grep_failure_degrades envTimeout "S1-M1-A" (Or.inl rfl)

/-- `main`'s `failed` flag is off exactly when the two failure totals are
both zero. -/
theorem any_flag_iff_totals (rs : List SpecResult) :
    (rs.any (fun r => !r.1.2.isEmpty || !r.2.2.isEmpty) = false) ↔
    ((rs.map (fun r => r.1.2.length)).sum + (rs.map (fun r => r.2.2.length)).sum = 0) := by
  induction rs with
  | nil => simp
  | cons r rest ih =>
    rw [List.any_cons, Bool.or_eq_false_iff, ih, List.map_cons, List.sum_cons,
        List.map_cons, List.sum_cons]
    have hr : (!r.1.2.isEmpty || !r.2.2.isEmpty) = false ↔
        r.1.2.length = 0 ∧ r.2.2.length = 0 := by
      rcases r with ⟨⟨ids, un⟩, ⟨ptrs, br⟩⟩
      cases un <;> cases br <;> simp
    rw [hr]
    omega

/-- C1: in every completed run that found at least one spec document, the
exit status is 0 exactly when the unanchored-identifier total and the
broken-pointer total are both zero, and 1 as soon as at least one of
either exists. -/
theorem exit_code_contract (env : Env) (r : MainResult)
    (hne : find_spec_files env ≠ [])
    (h : linter_main env = .ok r) :
    (r.exit_code = 0 ↔ r.total_unanchored + r.total_broken = 0) ∧
    (0 < r.total_unanchored + r.total_broken → r.exit_code = 1) := by
  have hempty : (find_spec_files env).isEmpty = false := by
    rcases hs : (find_spec_files env).isEmpty with _ | _
    · rfl
    · exact absurd (List.isEmpty_iff.mp hs) hne
  rw [linter_main, hempty] at h
  simp only [Bool.false_eq_true, if_false] at h
  rcases hrs : run_specs env (find_spec_files env) with e | results
  · rw [hrs, except_bind_error] at h
    cases h
  · rw [hrs, except_bind_ok] at h
    injection h with h
    subst h
    rcases hf : results.any (fun x => !x.1.2.isEmpty || !x.2.2.isEmpty) with _ | _
    · have hsum := (any_flag_iff_totals results).mp hf
      simp [hsum]
    · have hsum : ¬ ((results.map (fun x => x.1.2.length)).sum +
          (results.map (fun x => x.2.2.length)).sum = 0) := by
        intro hz
        rw [← any_flag_iff_totals results] at hz
        rw [hf] at hz
        cases hz
      simp [hsum]

/-- Witness for C1: the clean single-document environment completes with
exit status 0 and zero totals. -/
theorem exit_code_contract_witness :
    linter_main envClean = .ok ⟨0, [], 0, 0, 0, 0⟩ ∧
    (((⟨0, [], 0, 0, 0, 0⟩ : MainResult).exit_code = 0) ↔
      ((⟨0, [], 0, 0, 0, 0⟩ : MainResult).total_unanchored +
       (⟨0, [], 0, 0, 0, 0⟩ : MainResult).total_broken = 0)) :=
  ⟨rfl, (exit_code_contract envClean ⟨0, [], 0, 0, 0, 0⟩ (by decide) rfl).1⟩

/-- `run_specs` aborts at a spec whose read fails, after cleanly
processed predecessors, regardless of what follows. -/
theorem run_specs_error_of_read_failure (env : Env) (p : String) (post : List String)
    (h3 : env.read_spec p = .error ()) :
    ∀ pre : List String, (∀ q ∈ pre, ∃ v, process_spec env q = .ok v) →
      run_specs env (pre ++ p :: post) = .error () := by
  have hp : process_spec env p = .error () := by
    rw [process_spec, lint_acceptance_ids_error env p h3]
    rfl
  intro pre
  induction pre with
  | nil =>
    intro _
    rw [List.nil_append, run_specs, hp]
    rfl
  | cons q rest ih =>
    intro hpre
    obtain ⟨v, hv⟩ := hpre q (List.mem_cons_self q rest)
    have hrest := ih (fun x hx => hpre x (List.mem_cons_of_mem q hx))
    rw [List.cons_append, run_specs, hv, except_bind_ok, hrest]
    rfl

/-- C10: if reading a spec document fails during claim extraction, the
exception propagates uncaught: the whole run aborts (an `Except.error`,
never an exit status), no matter how the documents after the failing one
would have behaved — they are not processed.  This contrasts with source
file `OSError`s in the function-presence check, which degrade to a lint
failure. -/
theorem spec_read_failure_aborts (env : Env) (pre : List String) (p : String)
    (post : List String)
    (h1 : find_spec_files env = pre ++ p :: post)
    (h2 : ∀ q ∈ pre, ∃ v, process_spec env q = .ok v)
    (h3 : env.read_spec p = .error ()) :
    linter_main env = .error () := by
  have hempty : (find_spec_files env).isEmpty = false := by
    rw [h1]
    cases pre <;> rfl
  rw [linter_main, hempty]
  simp only [Bool.false_eq_true, if_false]
  rw [h1, run_specs_error_of_read_failure env p post h3 pre h2]
  rfl

/-- Witness for C10: in `envAbort` the first document reads cleanly, the
second read raises, and `main` aborts. -/
theorem spec_read_failure_aborts_witness : linter_main envAbort = .error () :=
  spec_read_failure_aborts envAbort ["a.yaml"] "b.yaml" [] (by decide)
    (fun q hq => by
      have hqa : q = "a.yaml" := by
        rcases List.mem_singleton.mp hq with h
        exact h
      exact ⟨(([], []), ([], [])), by rw [hqa]; rfl⟩)
    rfl

/-- C8: identifier extraction has set semantics — the result is
duplicate-free, an identifier is in the extracted set iff it occurs as a
pattern match in the text, texts whose match lists are permutations of
one another (in particular the same text re-scanned, or the same
occurrences in another order or multiplicity) extract the same set, and
deduplication is idempotent. -/
theorem extraction_set_semantics (t₁ t₂ a : String)
    (hperm : List.Perm (acceptance_id_findall t₁) (acceptance_id_findall t₂)) :
    (acceptance_ids_of t₁).Nodup ∧
    (a ∈ acceptance_ids_of t₁ ↔ a ∈ acceptance_id_findall t₁) ∧
    List.Perm (acceptance_ids_of t₁) (acceptance_ids_of t₂) ∧
    (acceptance_ids_of t₁).toFinset = (acceptance_ids_of t₂).toFinset ∧
    (acceptance_ids_of t₁).dedup = acceptance_ids_of t₁ :=
  ⟨List.nodup_dedup _, List.mem_dedup, hperm.dedup,
   List.toFinset_eq_of_perm _ _ hperm.dedup, List.dedup_idem⟩

/-- Witness for C8: two documents holding the same two identifiers in
swapped order, with a duplicate occurrence in the first. -/
theorem extraction_set_semantics_witness :
    (acceptance_ids_of "S1-M1-A SC1-M22-BX7 S1-M1-A").Nodup ∧
    ("S1-M1-A" ∈ acceptance_ids_of "S1-M1-A SC1-M22-BX7 S1-M1-A" ↔
      "S1-M1-A" ∈ acceptance_id_findall "S1-M1-A SC1-M22-BX7 S1-M1-A") ∧
    List.Perm (acceptance_ids_of "S1-M1-A SC1-M22-BX7 S1-M1-A")
      (acceptance_ids_of "SC1-M22-BX7 S1-M1-A S1-M1-A") ∧
    (acceptance_ids_of "S1-M1-A SC1-M22-BX7 S1-M1-A").toFinset =
      (acceptance_ids_of "SC1-M22-BX7 S1-M1-A S1-M1-A").toFinset ∧
    (acceptance_ids_of "S1-M1-A SC1-M22-BX7 S1-M1-A").dedup =
      acceptance_ids_of "S1-M1-A SC1-M22-BX7 S1-M1-A" :=
  extraction_set_semantics "S1-M1-A SC1-M22-BX7 S1-M1-A"
    "SC1-M22-BX7 S1-M1-A S1-M1-A" "S1-M1-A" (by decide)

/-- The flattened pointer list is exactly as long as the line-by-line
match-count sum, independent of the starting line number. -/
theorem numberLines_map_length (g : List Char → List (String × String)) :
    ∀ (s : Nat) (ls : List (List Char)),
      (((numberLines s ls).map
        (fun il => (g il.2).map (fun m => (m.1, m.2, il.1)))).flatten).length
      = (ls.map (fun l => (g l).length)).sum := by
  intro s ls
  induction ls generalizing s with
  | nil => simp [numberLines]
  | cons l rest ih =>
    rw [numberLines]
    simp [ih (s + 1)]

/-- Every triple of the flattened pointer list carries a line number at
least the starting index and points into the line it was extracted
from. -/
theorem mem_numberLines_flatten (g : List Char → List (String × String)) :
    ∀ (s : Nat) (ls : List (List Char)) (fgi : String × String × Nat),
      fgi ∈ ((numberLines s ls).map
        (fun il => (g il.2).map (fun m => (m.1, m.2, il.1)))).flatten →
      s ≤ fgi.2.2 ∧ ∃ line, ls[fgi.2.2 - s]? = some line ∧ (fgi.1, fgi.2.1) ∈ g line := by
  intro s ls
  induction ls generalizing s with
  | nil =>
    intro fgi h
    simp [numberLines] at h
  | cons l rest ih =>
    intro fgi hmem
    rw [numberLines] at hmem
    simp only [List.map_cons, List.flatten_cons, List.mem_append] at hmem
    rcases hmem with hhead | htail
    · rcases List.mem_map.mp hhead with ⟨m, hm, heq⟩
      subst heq
      exact ⟨Nat.le_refl s, l, by simp, by simpa using hm⟩
    · obtain ⟨hs, line, hline, hmem2⟩ := ih (s + 1) fgi htail
      refine ⟨by omega, line, ?_, hmem2⟩
      have hidx : fgi.2.2 - s = (fgi.2.2 - (s + 1)) + 1 := by omega
      rw [hidx, List.getElem?_cons_succ]
      exact hline

/-- C7: pointer extraction records one (filename, function name, 1-based
line number) triple per occurrence — the total equals the sum of the
per-line match counts, every recorded triple points into its (1-based)
source line — and the broken list carries exactly one diagnostic per
broken occurrence, duplicates included. -/
theorem pointer_occurrences_not_deduplicated (text : String) (env : Env) :
    ((test_pointers_of text).length
      = ((splitLines text.toList).map (fun l => (lineMatches l).length)).sum) ∧
    (∀ fgi ∈ test_pointers_of text, 1 ≤ fgi.2.2 ∧
      ∃ line, (splitLines text.toList)[fgi.2.2 - 1]? = some line ∧
        (fgi.1, fgi.2.1) ∈ lineMatches line) ∧
    (∀ bs, broken_list env (test_pointers_of text) = .ok bs →
      bs.length = (test_pointers_of text).countP (is_broken env)) := by
  refine ⟨numberLines_map_length lineMatches 1 (splitLines text.toList), ?_, ?_⟩
  · intro fgi hmem
    exact mem_numberLines_flatten lineMatches 1 (splitLines text.toList) fgi hmem
  · intro bs h
    exact broken_list_length env (test_pointers_of text) bs h

/-- Witness for C7: a document with three occurrences of the same broken
pointer (two on one line, one repeated later) against the ambiguous
environment. -/
theorem pointer_occurrences_not_deduplicated_witness :
    (((test_pointers_of "  - \"compile.rs::run\" \"compile.rs::run\"\n  - \"compile.rs::run\"").length
      = ((splitLines ("  - \"compile.rs::run\" \"compile.rs::run\"\n  - \"compile.rs::run\"").toList).map
          (fun l => (lineMatches l).length)).sum) ∧
    (∀ fgi ∈ test_pointers_of "  - \"compile.rs::run\" \"compile.rs::run\"\n  - \"compile.rs::run\"",
      1 ≤ fgi.2.2 ∧
      ∃ line, (splitLines ("  - \"compile.rs::run\" \"compile.rs::run\"\n  - \"compile.rs::run\"").toList)[fgi.2.2 - 1]? = some line ∧
        (fgi.1, fgi.2.1) ∈ lineMatches line) ∧
    (∀ bs, broken_list envAmbig
        (test_pointers_of "  - \"compile.rs::run\" \"compile.rs::run\"\n  - \"compile.rs::run\"") = .ok bs →
      bs.length = (test_pointers_of "  - \"compile.rs::run\" \"compile.rs::run\"\n  - \"compile.rs::run\"").countP
        (is_broken envAmbig))) :=
  pointer_occurrences_not_deduplicated
    "  - \"compile.rs::run\" \"compile.rs::run\"\n  - \"compile.rs::run\"" envAmbig

/-- Python `\b` state as a function of the text already scanned:
`boundaryB w pre = true` iff a match may start right after `pre`, where
`w` is the wordness of the character preceding `pre` (`false` at the
start of the text). -/
def boundaryB (w : Bool) : List Char → Bool
  | [] => !w
  | c :: pre => boundaryB (isWordChar c) pre

/-- Specification-side statement of the function-presence check: the file
text contains the keyword `fn` — preceded by a word boundary (start of
text or a non-word character) — then at least one whitespace character,
the exact function name, optional whitespace, and an opening parenthesis.
A name that is a proper prefix of a longer identifier cannot satisfy
this, since the character after the name must be whitespace or `(`. -/
def SpecFnPresence (name text : List Char) : Prop :=
  ∃ pre ws1 ws2 post,
    text = pre ++ ('f' :: 'n' :: (ws1 ++ (name ++ (ws2 ++ '(' :: post)))) ∧
    ws1 ≠ [] ∧ (∀ c ∈ ws1, isSpaceChar c = true) ∧ (∀ c ∈ ws2, isSpaceChar c = true) ∧
    (pre = [] ∨ ∃ p, pre.getLast? = some p ∧ isWordChar p = false)

/-- The backtracking `\s*` combinator succeeds exactly on inputs with a
whitespace prefix whose remainder satisfies the continuation. -/
theorem spacesStarThen_eq_true (k : List Char → Bool) :
    ∀ cs, spacesStarThen k cs = true ↔
      ∃ ws rest, cs = ws ++ rest ∧ (∀ c ∈ ws, isSpaceChar c = true) ∧ k rest = true := by
  intro cs
  induction cs with
  | nil =>
    rw [spacesStarThen]
    constructor
    · intro h
      exact ⟨[], [], rfl, by simp, h⟩
    · rintro ⟨ws, rest, heq, -, hk⟩
      obtain ⟨hws, hrest⟩ := List.append_eq_nil.mp heq.symm
      subst hws
      subst hrest
      exact hk
  | cons c cs ih =>
    rw [spacesStarThen]
    simp only [Bool.or_eq_true, Bool.and_eq_true]
    constructor
    · rintro (⟨hc, hstar⟩ | hk)
      · obtain ⟨ws, rest, heq, hws, hk⟩ := ih.mp hstar
        refine ⟨c :: ws, rest, by rw [heq, List.cons_append], ?_, hk⟩
        intro d hd
        rcases List.mem_cons.mp hd with h | h
        · subst h
          exact hc
        · exact hws d h
      · exact ⟨[], c :: cs, rfl, by simp, hk⟩
    · rintro ⟨ws, rest, heq, hws, hk⟩
      rcases ws with _ | ⟨w, ws2⟩
      · right
        rw [List.nil_append] at heq
        subst heq
        exact hk
      · left
        rw [List.cons_append] at heq
        injection heq with h1 h2
        subst h1
        exact ⟨hws c (List.mem_cons_self c ws2),
          ih.mpr ⟨ws2, rest, h2, fun d hd => hws d (List.mem_cons_of_mem c hd), hk⟩⟩

/-- The backtracking `\s+` combinator succeeds exactly on inputs with a
nonempty whitespace prefix whose remainder satisfies the continuation. -/
theorem spacesPlusThen_eq_true (k : List Char → Bool) :
    ∀ cs, spacesPlusThen k cs = true ↔
      ∃ ws rest, cs = ws ++ rest ∧ ws ≠ [] ∧
        (∀ c ∈ ws, isSpaceChar c = true) ∧ k rest = true := by
  intro cs
  cases cs with
  | nil =>
    rw [spacesPlusThen]
    constructor
    · intro h
      cases h
    · rintro ⟨ws, rest, heq, hne, -, -⟩
      obtain ⟨hws, -⟩ := List.append_eq_nil.mp heq.symm
      exact absurd hws hne
  | cons c cs =>
    rw [spacesPlusThen]
    simp only [Bool.and_eq_true]
    constructor
    · rintro ⟨hc, hstar⟩
      obtain ⟨ws, rest, heq, hws, hk⟩ := (spacesStarThen_eq_true k cs).mp hstar
      refine ⟨c :: ws, rest, by rw [heq, List.cons_append], by simp, ?_, hk⟩
      intro d hd
      rcases List.mem_cons.mp hd with h | h
      · subst h
        exact hc
      · exact hws d h
    · rintro ⟨ws, rest, heq, hne, hws, hk⟩
      rcases ws with _ | ⟨w, ws2⟩
      · exact absurd rfl hne
      · rw [List.cons_append] at heq
        injection heq with h1 h2
        subst h1
        exact ⟨hws c (List.mem_cons_self c ws2),
          (spacesStarThen_eq_true k cs).mpr
            ⟨ws2, rest, h2, fun d hd => hws d (List.mem_cons_of_mem c hd), hk⟩⟩

/-- The name-then-parenthesis continuation succeeds exactly when the
input is the name, optional whitespace and an opening parenthesis. -/
theorem fnNameThenParen_eq_true (name : List Char) :
    ∀ cs, fnNameThenParen name cs = true ↔
      ∃ ws2 post, cs = name ++ (ws2 ++ '(' :: post) ∧
        (∀ c ∈ ws2, isSpaceChar c = true) := by
  intro cs
  rw [fnNameThenParen]
  simp only [Bool.and_eq_true]
  constructor
  · rintro ⟨hpre, hstar⟩
    obtain ⟨t, ht⟩ := List.isPrefixOf_iff_prefix.mp hpre
    have hdrop : cs.drop name.length = t := by
      rw [← ht, List.drop_left]
    rw [hdrop] at hstar
    obtain ⟨ws2, rest, heq, hws2, hopen⟩ := (spacesStarThen_eq_true headIsOpen t).mp hstar
    rcases rest with _ | ⟨r, rs⟩
    · rw [headIsOpen] at hopen
      cases hopen
    · rw [headIsOpen] at hopen
      have hr : r = '(' := by
        have := beq_iff_eq.mp hopen
        exact this
      subst hr
      exact ⟨ws2, rs, by rw [← ht, heq], hws2⟩
  · rintro ⟨ws2, post, heq, hws2⟩
    subst heq
    constructor
    · exact List.isPrefixOf_iff_prefix.mpr ⟨ws2 ++ '(' :: post, rfl⟩
    · rw [List.drop_left]
      exact (spacesStarThen_eq_true headIsOpen _).mpr
        ⟨ws2, '(' :: post, rfl, hws2, by rw [headIsOpen]; exact beq_self_eq_true '('⟩

/-- The anchored `fn\s+<name>\s*\(` matcher succeeds exactly on inputs of
that shape. -/
theorem fnMatchHere_eq_true (name : List Char) :
    ∀ cs, fnMatchHere name cs = true ↔
      ∃ ws1 ws2 rest, cs = 'f' :: 'n' :: (ws1 ++ (name ++ (ws2 ++ '(' :: rest))) ∧
        ws1 ≠ [] ∧ (∀ c ∈ ws1, isSpaceChar c = true) ∧
        (∀ c ∈ ws2, isSpaceChar c = true) := by
  intro cs
  rcases cs with _ | ⟨c1, _ | ⟨c2, r⟩⟩
  · rw [fnMatchHere]
    constructor
    · intro h
      cases h
    · rintro ⟨ws1, ws2, rest, heq, -⟩
      cases heq
  · rw [fnMatchHere]
    constructor
    · intro h
      cases h
    · rintro ⟨ws1, ws2, rest, heq, -⟩
      injection heq with h1 h2
      exact List.noConfusion h2
  · rw [fnMatchHere]
    simp only [Bool.and_eq_true, beq_iff_eq]
    constructor
    · rintro ⟨⟨hc1, hc2⟩, hplus⟩
      subst hc1
      subst hc2
      obtain ⟨ws1, rest1, heq, hne, hws1, hk⟩ :=
        (spacesPlusThen_eq_true (fnNameThenParen name) r).mp hplus
      obtain ⟨ws2, post, heq2, hws2⟩ := (fnNameThenParen_eq_true name rest1).mp hk
      refine ⟨ws1, ws2, post, ?_, hne, hws1, hws2⟩
      rw [heq, heq2]
    · rintro ⟨ws1, ws2, rest, heq, hne, hws1, hws2⟩
      injection heq with h1 heq'
      injection heq' with h2 heq''
      subst h1
      subst h2
      refine ⟨⟨rfl, rfl⟩, ?_⟩
      exact (spacesPlusThen_eq_true (fnNameThenParen name) r).mpr
        ⟨ws1, name ++ (ws2 ++ '(' :: rest), heq'', hne, hws1,
          (fnNameThenParen_eq_true name _).mpr ⟨ws2, rest, rfl, hws2⟩⟩

/-- The position scan succeeds exactly when the text splits at a word
boundary into a prefix and a suffix matching the anchored pattern. -/
theorem fnSearchAux_eq_true (name : List Char) :
    ∀ cs w, fnSearchAux name w cs = true ↔
      ∃ pre suf, cs = pre ++ suf ∧ boundaryB w pre = true ∧
        fnMatchHere name suf = true := by
  intro cs
  induction cs with
  | nil =>
    intro w
    rw [fnSearchAux]
    constructor
    · intro h
      cases h
    · rintro ⟨pre, suf, heq, -, hm⟩
      obtain ⟨hpre, hsuf⟩ := List.append_eq_nil.mp heq.symm
      subst hpre
      subst hsuf
      rw [fnMatchHere] at hm
      cases hm
  | cons c cs ih =>
    intro w
    rw [fnSearchAux]
    simp only [Bool.or_eq_true, Bool.and_eq_true]
    constructor
    · rintro (⟨hw, hm⟩ | hrec)
      · refine ⟨[], c :: cs, rfl, ?_, hm⟩
        rw [boundaryB]
        exact hw
      · obtain ⟨pre, suf, heq, hb, hm⟩ := (ih (isWordChar c)).mp hrec
        refine ⟨c :: pre, suf, by rw [heq, List.cons_append], ?_, hm⟩
        rw [boundaryB]
        exact hb
    · rintro ⟨pre, suf, heq, hb, hm⟩
      rcases pre with _ | ⟨p, pre2⟩
      · left
        rw [List.nil_append] at heq
        rw [boundaryB] at hb
        subst heq
        exact ⟨hb, hm⟩
      · right
        rw [List.cons_append] at heq
        injection heq with h1 h2
        subst h1
        rw [boundaryB] at hb
        exact (ih (isWordChar c)).mpr ⟨pre2, suf, h2, hb, hm⟩

/-- The `\b` state is on exactly at the start of the text or after a
non-word character. -/
theorem boundaryB_eq_true_iff :
    ∀ (pre : List Char) (w : Bool), boundaryB w pre = true ↔
      ((pre = [] ∧ w = false) ∨ ∃ p, pre.getLast? = some p ∧ isWordChar p = false) := by
  intro pre
  induction pre with
  | nil =>
    intro w
    rw [boundaryB]
    constructor
    · intro h
      left
      refine ⟨rfl, ?_⟩
      cases w
      · rfl
      · cases h
    · rintro (⟨-, hw⟩ | ⟨p, hp, -⟩)
      · rw [hw]
        rfl
      · cases hp
  | cons c pre2 ih =>
    intro w
    rw [boundaryB, ih (isWordChar c)]
    constructor
    · rintro (⟨hpre2, hc⟩ | ⟨p, hp, hw⟩)
      · subst hpre2
        exact Or.inr ⟨c, rfl, hc⟩
      · right
        refine ⟨p, ?_, hw⟩
        rcases pre2 with _ | ⟨d, pre3⟩
        · cases hp
        · rw [List.getLast?_cons_cons]
          exact hp
    · rintro (⟨habs, -⟩ | ⟨p, hp, hw⟩)
      · cases habs
      · rcases pre2 with _ | ⟨d, pre3⟩
        · left
          have hpc : p = c := by
            have : (([c] : List Char)).getLast? = some c := rfl
            rw [this] at hp
            injection hp with h
            exact h.symm
          subst hpc
          exact ⟨rfl, hw⟩
        · right
          rw [List.getLast?_cons_cons] at hp
          exact ⟨p, hp, hw⟩

/-- C4: for a readable file, the function-presence check returns true if
and only if the file's text contains a keyword-prefixed definition of the
exact name — `fn`, at a word boundary, one-or-more whitespace, the name,
zero-or-more whitespace, `(`.  In particular a file containing only
`fn run_all(` does not satisfy the name `run` (after `run` comes `_`,
neither whitespace nor `(`), while `fn run(` does, under any whitespace
variation. -/
theorem fn_presence_iff (env : Env) (path fn_name text : String)
    (h : env.read_text path = .ok text) :
    (file_contains_fn env path fn_name = .ok true ↔
      SpecFnPresence fn_name.toList text.toList) := by
  have hred : file_contains_fn env path fn_name
      = .ok (fnSearchAux fn_name.toList false text.toList) := by
    rw [file_contains_fn, h]
  rw [hred]
  constructor
  · intro hok
    injection hok with hb
    obtain ⟨pre, suf, heq, hbound, hmatch⟩ :=
      (fnSearchAux_eq_true fn_name.toList text.toList false).mp hb
    obtain ⟨ws1, ws2, rest, heq2, hne, hws1, hws2⟩ :=
      (fnMatchHere_eq_true fn_name.toList suf).mp hmatch
    refine ⟨pre, ws1, ws2, rest, by rw [heq, heq2], hne, hws1, hws2, ?_⟩
    rcases (boundaryB_eq_true_iff pre false).mp hbound with ⟨hpre, -⟩ | hex
    · exact Or.inl hpre
    · exact Or.inr hex
  · rintro ⟨pre, ws1, ws2, post, heq, hne, hws1, hws2, hbound⟩
    have hb : fnSearchAux fn_name.toList false text.toList = true := by
      apply (fnSearchAux_eq_true fn_name.toList text.toList false).mpr
      refine ⟨pre, _, heq, ?_,
        (fnMatchHere_eq_true fn_name.toList _).mpr ⟨ws1, ws2, post, rfl, hne, hws1, hws2⟩⟩
      apply (boundaryB_eq_true_iff pre false).mpr
      rcases hbound with hpre | hex
      · exact Or.inl ⟨hpre, rfl⟩
      · exact Or.inr hex
    rw [hb]

/-- Environment whose single source file contains `fn run(`. -/
def envFnRun : Env :=
  ⟨true, [], fun _ => .error (), fun _ _ => .completed "", fun _ => true,
   fun _ _ => [], fun _ => true, fun _ => .ok "pub fn run(x: u8);"⟩

/-- Witness for C4: the iff at a concrete file containing `fn run(`. -/
theorem fn_presence_iff_witness :
    file_contains_fn envFnRun "kernel/src/a.rs" "run" = .ok true ↔
      SpecFnPresence "run".toList "pub fn run(x: u8);".toList :=
  fn_presence_iff envFnRun "kernel/src/a.rs" "run" "pub fn run(x: u8);" rfl
